import Mathlib

/-!
Verification development for the CLC Timetable application (`src/app.py`).

The application is a Streamlit page over a Supabase table `timetable_store`.
We shallowly embed:

* the base64 transport encoding used when saving and reading PDF bytes
  (Python `base64.b64encode` / `base64.b64decode`, RFC 4648), modelled at the
  level of byte values (`List Nat`, each `< 256`) and ASCII codes of the
  encoded text;
* Python's `str.strip`, used to validate and normalise the upload label;
* `datetime.date.toordinal` and the term/week label function
  `get_term_week_label` over the `SA_TERMS` table;
* the repository operations `get_timetable`, `get_all_timetables`,
  `save_timetable`, `delete_timetable` over an explicit store state, where
  the Supabase query `order("uploaded_at", desc=True)` is modelled as a
  deterministic sort, descending by `uploaded_at` with ties broken by the
  store's secondary ordering on `id`;
* the `try/except` wrappers of those operations, with the `st.error`
  messages they emit;
* the admin gate `verify_admin` and the `admin_authed` session boolean;
* the upload-form submit handler.
-/

/-! ### Base64 (model of Python's `base64.b64encode`/`b64decode`) -/

/-- ASCII code of the base64 digit for a sextet value `n < 64`
(RFC 4648 alphabet `A-Z a-z 0-9 + /`). -/
def b64EncodeSix (n : Nat) : Nat :=
  if n < 26 then 65 + n
  else if n < 52 then 97 + (n - 26)
  else if n < 62 then 48 + (n - 52)
  else if n = 62 then 43 else 47

/-- Sextet value of a base64 ASCII code; `64` marks a non-alphabet
character (including the pad `'='`, code 61). -/
def b64DecodeSix (v : Nat) : Nat :=
  if 65 ≤ v ∧ v ≤ 90 then v - 65
  else if 97 ≤ v ∧ v ≤ 122 then (v - 97) + 26
  else if 48 ≤ v ∧ v ≤ 57 then (v - 48) + 52
  else if v = 43 then 62
  else if v = 47 then 63
  else 64

/-- ASCII code of the base64 pad character `'='`. -/
def b64Pad : Nat := 61

/-- Base64-encode a byte list into the ASCII codes of the encoded text,
three bytes to four characters, padding the final group with `'='`. -/
def b64Encode : List Nat → List Nat
  | a :: b :: c :: rest =>
      b64EncodeSix (a / 4) :: b64EncodeSix (a % 4 * 16 + b / 16) ::
      b64EncodeSix (b % 16 * 4 + c / 64) :: b64EncodeSix (c % 64) :: b64Encode rest
  | [a, b] =>
      [b64EncodeSix (a / 4), b64EncodeSix (a % 4 * 16 + b / 16),
       b64EncodeSix (b % 16 * 4), b64Pad]
  | [a] =>
      [b64EncodeSix (a / 4), b64EncodeSix (a % 4 * 16), b64Pad, b64Pad]
  | [] => []

/-- Base64-decode a list of ASCII codes back to bytes, four characters to
three bytes; `none` on malformed input (as Python's `b64decode` raises). -/
def b64Decode : List Nat → Option (List Nat)
  | [] => some []
  | c1 :: c2 :: c3 :: c4 :: rest =>
      let v1 := b64DecodeSix c1
      let v2 := b64DecodeSix c2
      if v1 < 64 ∧ v2 < 64 then
        if c3 = b64Pad ∧ c4 = b64Pad ∧ rest = [] then
          some [v1 * 4 + v2 / 16]
        else if c4 = b64Pad ∧ rest = [] then
          let v3 := b64DecodeSix c3
          if v3 < 64 then some [v1 * 4 + v2 / 16, v2 % 16 * 16 + v3 / 4] else none
        else
          let v3 := b64DecodeSix c3
          let v4 := b64DecodeSix c4
          if v3 < 64 ∧ v4 < 64 then
            (b64Decode rest).map
              (fun tail => (v1 * 4 + v2 / 16) :: (v2 % 16 * 16 + v3 / 4) :: (v3 % 4 * 64 + v4) :: tail)
          else none
      else none
  | _ => none

/-! ### Python `str.strip` (used on the upload label) -/

/-- Strip of a character list: remove leading and trailing whitespace
(model of Python `str.strip` on the label). -/
def stripList (l : List Char) : List Char :=
  (l.dropWhile Char.isWhitespace).rdropWhile Char.isWhitespace

/-- Model of Python `str.strip` as used in the upload form handler
(`lbl.strip()`, `src/app.py` lines 414-421). -/
def pyStrip (s : String) : String :=
  String.mk (stripList s.toList)

/-! ### Data model (`timetable_store` rows) -/

/-- One row of the `timetable_store` table.  `file_data` holds the ASCII
codes of the base64-encoded PDF bytes (the text-safe transport encoding);
`uploaded_at` is the UTC timestamp, modelled as a totally ordered `Nat`
(ISO-8601 strings compare chronologically). -/
structure TimetableRecord where
  id : Nat
  filename : String
  file_data : List Nat
  label : String
  program : String
  uploaded_by : String
  uploaded_at : Nat
deriving DecidableEq, Repr

/-- Metadata-only projection returned by `get_all_timetables`
(`select("id, filename, label, uploaded_by, uploaded_at, program")`):
no `file_data` payload. -/
structure RecordSummary where
  id : Nat
  filename : String
  label : String
  uploaded_by : String
  uploaded_at : Nat
  program : String
deriving DecidableEq, Repr

/-- Project a row to its metadata-only summary. -/
def toSummary (r : TimetableRecord) : RecordSummary :=
  { id := r.id, filename := r.filename, label := r.label,
    uploaded_by := r.uploaded_by, uploaded_at := r.uploaded_at,
    program := r.program }

/-- The store's deterministic listing order for
`order("uploaded_at", desc=True)`: descending by `uploaded_at`,
ties broken by the store's secondary ordering (`id`, descending).
`rowLE a b` means `a` is listed no later than `b`. -/
def rowLE (a b : TimetableRecord) : Bool :=
  decide (b.uploaded_at < a.uploaded_at ∨
    (a.uploaded_at = b.uploaded_at ∧ b.id ≤ a.id))

/-- Rows of one program in the store's listing order: the query
`select(...).eq("program", program).order("uploaded_at", desc=True)`. -/
def programRows (store : List TimetableRecord) (p : String) : List TimetableRecord :=
  (store.filter (fun r => r.program == p)).mergeSort rowLE

/-- Model of `get_timetable` (`src/app.py` lines 59-74), success path:
the query above with `limit(1)`, then `result.data[0] if result.data else None`. -/
def get_timetable (store : List TimetableRecord) (p : String) : Option TimetableRecord :=
  (programRows store p).head?

/-- Model of `get_all_timetables` (`src/app.py` lines 76-89), success path:
all rows of the program, newest first, metadata only. -/
def get_all_timetables (store : List TimetableRecord) (p : String) : List RecordSummary :=
  (programRows store p).map toSummary

/-- Model of `delete_timetable` (`src/app.py` lines 106-112), success path:
`delete().eq("id", row_id)` removes exactly the rows with that id. -/
def delete_timetable (store : List TimetableRecord) (row_id : Nat) : List TimetableRecord :=
  store.filter (fun r => !(r.id == row_id))

/-- Store state: the rows plus the store's auto-increment id counter. -/
structure StoreState where
  rows : List TimetableRecord
  nextId : Nat
deriving DecidableEq, Repr

/-- Model of `save_timetable` (`src/app.py` lines 91-104), success path:
insert one new immutable row; the store assigns the id, the repository
assigns `uploaded_at = now` server-side. -/
def save_timetable (s : StoreState) (filename : String) (file_b64 : List Nat)
    (label program : String) (uploaded_by : String) (now : Nat) : StoreState :=
  { rows := s.rows ++
      [{ id := s.nextId, filename := filename, file_data := file_b64,
         label := label, program := program, uploaded_by := uploaded_by,
         uploaded_at := now }],
    nextId := s.nextId + 1 }

/-! ### Event sequences (uploads and deletes) -/

/-- An admin mutation against the store. -/
inductive StoreEvent where
  | upload (filename : String) (file_b64 : List Nat) (label program uploaded_by : String)
      (uploaded_at : Nat)
  | delete (row_id : Nat)
deriving DecidableEq, Repr

/-- Apply one event to the store state. -/
def applyEvent (s : StoreState) : StoreEvent → StoreState
  | .upload filename file_b64 label program uploaded_by uploaded_at =>
      save_timetable s filename file_b64 label program uploaded_by uploaded_at
  | .delete row_id => { s with rows := delete_timetable s.rows row_id }

/-- Run a sequence of uploads and deletes from the empty store. -/
def runEvents (es : List StoreEvent) : StoreState :=
  es.foldl applyEvent { rows := [], nextId := 0 }

/-! ### Dates and the term/week label -/

/-- Leap-year test of the proleptic Gregorian calendar
(model of Python's `datetime` internals). -/
def isLeap (y : Nat) : Bool :=
  y % 4 = 0 && (y % 100 != 0 || y % 400 = 0)

/-- Days in the months before month `m` of year `y` (1-based month). -/
def daysBeforeMonth (y m : Nat) : Nat :=
  let base := [0, 31, 59, 90, 120, 151, 181, 212, 243, 273, 304, 334].getD (m - 1) 0
  if 2 < m && isLeap y then base + 1 else base

/-- Model of Python `datetime.date.toordinal`: day count with
0001-01-01 as day 1. -/
def toOrdinal (y m d : Nat) : Nat :=
  (y - 1) * 365 + (y - 1) / 4 - (y - 1) / 100 + (y - 1) / 400 + daysBeforeMonth y m + d

/-- The SA school calendar 2026 (`src/app.py` lines 25-30):
`(term_number, first_monday, total_weeks)`, dates as ordinals. -/
def SA_TERMS : List (Nat × Nat × Nat) :=
  [(1, toOrdinal 2026 1 26, 11),
   (2, toOrdinal 2026 4 27, 10),
   (3, toOrdinal 2026 7 20, 10),
   (4, toOrdinal 2026 10 12, 9)]

/-- The in-term label string `f"Term {term_num}  ·  Week {week_num}"`. -/
def termWeekString (n w : Nat) : String :=
  "Term " ++ toString n ++ "  ·  Week " ++ toString w

/-- The `for` loop of `get_term_week_label`: first term whose inclusive
range `[first_mon, first_mon + total_weeks*7 - 1]` contains today. -/
def termLoop (today : Nat) : List (Nat × Nat × Nat) → Option String
  | [] => none
  | (tn, fm, tw) :: rest =>
      if fm ≤ today ∧ today ≤ fm + tw * 7 - 1 then
        some (termWeekString tn ((today - fm) / 7 + 1))
      else termLoop today rest

/-- Model of `get_term_week_label` (`src/app.py` lines 32-43),
parameterised by today's date as an ordinal. -/
def get_term_week_label (today : Nat) : String :=
  match termLoop today SA_TERMS with
  | some s => s
  | none =>
      if today < (SA_TERMS.headD (0, 0, 0)).2.1 then "Week 0 — Pre-Term"
      else "School Holidays"

/-! ### The `try/except` wrappers (failure policy)

Each repository function wraps its store interaction in `try/except`.
We model the store interaction's outcome explicitly and return, besides
the function's result, the list of `st.error` messages it surfaces. -/

/-- Outcome of one store interaction: the data on success, or the
exception text on a transport/store error. -/
inductive StoreResult (α : Type) where
  | ok (data : α)
  | err (msg : String)
deriving DecidableEq, Repr

/-- `get_timetable` with its `try/except` (`src/app.py` lines 59-74):
on error, `st.error(f"Database error: {e}")` and return `None`. -/
def get_timetableW (q : StoreResult (List TimetableRecord)) :
    Option TimetableRecord × List String :=
  match q with
  | .ok data => (data.head?, [])
  | .err e => (none, ["Database error: " ++ e])

/-- `get_all_timetables` with its `try/except` (`src/app.py` lines 76-89):
on error, return `[]` — the bare `except` surfaces no message. -/
def get_all_timetablesW (q : StoreResult (List RecordSummary)) :
    List RecordSummary × List String :=
  match q with
  | .ok data => (data, [])
  | .err _ => ([], [])

/-- `save_timetable` with its `try/except` (`src/app.py` lines 91-104):
on error, `st.error(f"Save failed: {e}")` and return `False`. -/
def save_timetableW (q : StoreResult Unit) : Bool × List String :=
  match q with
  | .ok _ => (true, [])
  | .err e => (false, ["Save failed: " ++ e])

/-- `delete_timetable` with its `try/except` (`src/app.py` lines 106-112):
on error, `st.error(f"Delete failed: {e}")` and return `False`. -/
def delete_timetableW (q : StoreResult Unit) : Bool × List String :=
  match q with
  | .ok _ => (true, [])
  | .err e => (false, ["Delete failed: " ++ e])

/-! ### Admin gate -/

/-- Model of `verify_admin` (`src/app.py` lines 114-115):
`password == st.secrets.get("ADMIN_PASSWORD", "CLC2026admin")`.
`secrets` is the configured secret, `none` when unconfigured. -/
def verify_admin (secrets : Option String) (password : String) : Bool :=
  password == secrets.getD "CLC2026admin"

/-- Initial value of the session flag `st.session_state.admin_authed`
(`src/app.py` lines 270-271): false in every new session. -/
def initialAuthed : Bool := false

/-- An interaction with the admin gate. -/
inductive AdminEvent where
  | loginAttempt (pw : String)
  | logout
deriving DecidableEq, Repr

/-- One step of the `admin_authed` session boolean: the login form sets it
to true exactly when `verify_admin` accepts (`src/app.py` lines 379-384);
the logout button sets it to false (`src/app.py` lines 423-425). -/
def stepAuthed (secrets : Option String) (b : Bool) : AdminEvent → Bool
  | .loginAttempt pw => if verify_admin secrets pw then true else b
  | .logout => false

/-- The session flag after a sequence of gate interactions. -/
def runAdmin (secrets : Option String) (es : List AdminEvent) : Bool :=
  es.foldl (stepAuthed secrets) initialAuthed

/-! ### Upload form submit handler -/

/-- The upload form's widget state: the chosen file (name and raw bytes;
`none` when no file was chosen), the label text, the program choice. -/
structure UploadForm where
  file : Option (String × List Nat)
  label : String
  program : String
deriving DecidableEq, Repr

/-- Model of the submit handler (`src/app.py` lines 411-422): reject when
no file (`if not file`), reject when the stripped label is empty
(`elif not lbl.strip()`), otherwise save the base64-encoded bytes under
the stripped label.  Returns the new store state and whether a save ran. -/
def submitUpload (s : StoreState) (form : UploadForm) (now : Nat) : StoreState × Bool :=
  match form.file with
  | none => (s, false)
  | some (fname, raw) =>
      if pyStrip form.label = "" then (s, false)
      else
        (save_timetable s fname (b64Encode raw) (pyStrip form.label) form.program
          "Admin" now, true)

/-! ### Properties of the listing order -/

lemma rowLE_refl (a : TimetableRecord) : rowLE a a := by
  simp [rowLE]

lemma rowLE_trans (a b c : TimetableRecord) : rowLE a b → rowLE b c → rowLE a c := by
  simp only [rowLE, decide_eq_true_eq]
  omega

lemma rowLE_total (a b : TimetableRecord) : rowLE a b || rowLE b a := by
  simp only [rowLE, Bool.or_eq_true, decide_eq_true_eq]
  omega

lemma rowLE_key_eq {a b : TimetableRecord} (hab : rowLE a b) (hba : rowLE b a) :
    a.uploaded_at = b.uploaded_at ∧ a.id = b.id := by
  simp only [rowLE, decide_eq_true_eq] at hab hba
  omega

lemma rowLE_uploaded_at {a b : TimetableRecord} (h : rowLE a b) :
    b.uploaded_at ≤ a.uploaded_at := by
  simp only [rowLE, decide_eq_true_eq] at h
  omega

lemma mem_programRows {store : List TimetableRecord} {p : String} {r : TimetableRecord} :
    r ∈ programRows store p ↔ r ∈ store ∧ r.program = p := by
  simp [programRows, List.mem_filter]

lemma programRows_sorted (store : List TimetableRecord) (p : String) :
    (programRows store p).Pairwise (fun a b => rowLE a b) :=
  List.sorted_mergeSort rowLE_trans rowLE_total _

lemma get_timetable_eq_none_iff (store : List TimetableRecord) (p : String) :
    get_timetable store p = none ↔ ∀ r ∈ store, r.program ≠ p := by
  rw [get_timetable, List.head?_eq_none_iff, List.eq_nil_iff_forall_not_mem]
  constructor
  · intro h r hr hp
    exact h r (mem_programRows.mpr ⟨hr, hp⟩)
  · intro h r hr
    obtain ⟨h1, h2⟩ := mem_programRows.mp hr
    exact h r h1 h2

lemma get_timetable_some_spec {store : List TimetableRecord} {p : String}
    {c : TimetableRecord} (h : get_timetable store p = some c) :
    c ∈ store ∧ c.program = p ∧ ∀ r ∈ store, r.program = p → rowLE c r := by
  rw [get_timetable, List.head?_eq_some_iff] at h
  obtain ⟨t, ht⟩ := h
  have hcmem : c ∈ programRows store p := by
    rw [ht]; exact List.mem_cons_self c t
  have hsorted := programRows_sorted store p
  rw [ht, List.pairwise_cons] at hsorted
  obtain ⟨hc1, hc2⟩ := mem_programRows.mp hcmem
  refine ⟨hc1, hc2, fun r hr hp => ?_⟩
  have : r ∈ programRows store p := mem_programRows.mpr ⟨hr, hp⟩
  rw [ht, List.mem_cons] at this
  rcases this with rfl | hmem
  · exact rowLE_refl r
  · exact hsorted.1 r hmem

lemma get_timetable_isSome_of_mem {store : List TimetableRecord} {p : String}
    {r : TimetableRecord} (hr : r ∈ store) (hp : r.program = p) :
    ∃ c, get_timetable store p = some c := by
  cases hgt : get_timetable store p with
  | none => exact absurd hp ((get_timetable_eq_none_iff store p).mp hgt r hr)
  | some c => exact ⟨c, rfl⟩

lemma id_inj_of_nodup {store : List TimetableRecord}
    (hN : (store.map TimetableRecord.id).Nodup) {a b : TimetableRecord}
    (ha : a ∈ store) (hb : b ∈ store) (hid : a.id = b.id) : a = b :=
  List.inj_on_of_nodup_map hN ha hb hid

lemma get_timetable_eq_some_of_max {store : List TimetableRecord} {p : String}
    {c : TimetableRecord} (hN : (store.map TimetableRecord.id).Nodup)
    (hc : c ∈ store) (hp : c.program = p)
    (hmax : ∀ r ∈ store, r.program = p → rowLE c r) :
    get_timetable store p = some c := by
  obtain ⟨m, hm⟩ := get_timetable_isSome_of_mem hc hp
  obtain ⟨hm1, hm2, hm3⟩ := get_timetable_some_spec hm
  have h1 : rowLE c m := hmax m hm1 hm2
  have h2 : rowLE m c := hm3 c hc hp
  have := id_inj_of_nodup hN hc hm1 (rowLE_key_eq h1 h2).2
  rw [hm, this]

/-- Claim C1: for every sequence of uploads and deletes and every program
`P`, `get_timetable` returns `none` exactly when no record tagged `P`
remains, and otherwise returns a remaining record tagged `P` whose
`uploaded_at` is maximal among all remaining records tagged `P`. -/
theorem c1_getCurrent_max (es : List StoreEvent) (p : String) :
    (get_timetable (runEvents es).rows p = none ↔
      ∀ r ∈ (runEvents es).rows, r.program ≠ p) ∧
    (∀ c, get_timetable (runEvents es).rows p = some c →
      c ∈ (runEvents es).rows ∧ c.program = p ∧
      ∀ r ∈ (runEvents es).rows, r.program = p → r.uploaded_at ≤ c.uploaded_at) := by
  refine ⟨get_timetable_eq_none_iff _ p, fun c hc => ?_⟩
  obtain ⟨h1, h2, h3⟩ := get_timetable_some_spec hc
  exact ⟨h1, h2, fun r hr hp => rowLE_uploaded_at (h3 r hr hp)⟩

/-- Claim C2: `get_all_timetables` returns exactly the metadata summaries
of the non-deleted records of the program, in `uploaded_at`-descending
order, and its first element is the summary of the record `get_timetable`
returns. -/
theorem c2_listAll_spec (store : List TimetableRecord) (p : String) :
    (∀ s : RecordSummary, s ∈ get_all_timetables store p ↔
      ∃ r ∈ store, r.program = p ∧ toSummary r = s) ∧
    (get_all_timetables store p).Pairwise
      (fun a b => b.uploaded_at ≤ a.uploaded_at) ∧
    (get_all_timetables store p).head? = (get_timetable store p).map toSummary := by
  refine ⟨fun s => ?_, ?_, ?_⟩
  · simp only [get_all_timetables, List.mem_map]
    constructor
    · rintro ⟨r, hr, rfl⟩
      obtain ⟨h1, h2⟩ := mem_programRows.mp hr
      exact ⟨r, h1, h2, rfl⟩
    · rintro ⟨r, h1, h2, rfl⟩
      exact ⟨r, mem_programRows.mpr ⟨h1, h2⟩, rfl⟩
  · rw [get_all_timetables, List.pairwise_map]
    exact (programRows_sorted store p).imp fun h => rowLE_uploaded_at h
  · rw [get_all_timetables, get_timetable, List.head?_map]

/-- Claim C7: `delete_timetable id` keeps exactly the records whose id
differs, and when the deleted id is not the current record's id,
`get_timetable` still returns the same current record (ids are
store-assigned, hence pairwise distinct). -/
theorem c7_delete_frame (store : List TimetableRecord) (rid : Nat) (p : String)
    (c : TimetableRecord) (hN : (store.map TimetableRecord.id).Nodup)
    (hc : get_timetable store p = some c) (hne : rid ≠ c.id) :
    (∀ r, r ∈ delete_timetable store rid ↔ r ∈ store ∧ r.id ≠ rid) ∧
    get_timetable (delete_timetable store rid) p = some c := by
  have hmem : ∀ r, r ∈ delete_timetable store rid ↔ r ∈ store ∧ r.id ≠ rid := by
    intro r
    simp [delete_timetable, List.mem_filter]
  refine ⟨hmem, ?_⟩
  have hsub : ∀ r ∈ delete_timetable store rid, r ∈ store :=
    fun r hr => ((hmem r).mp hr).1
  have hslist : (delete_timetable store rid).Sublist store :=
    List.filter_sublist store
  have hN' : ((delete_timetable store rid).map TimetableRecord.id).Nodup :=
    hN.sublist (hslist.map TimetableRecord.id)
  obtain ⟨hc1, hc2, hc3⟩ := get_timetable_some_spec hc
  have hcdel : c ∈ delete_timetable store rid :=
    (hmem c).mpr ⟨hc1, fun h => hne h.symm⟩
  exact get_timetable_eq_some_of_max hN' hcdel hc2
    (fun r hr hp => hc3 r (hsub r hr) hp)

/-- Witness for C7 at a concrete two-record store: deleting the
non-current record with id 1 leaves the current record (id 2) current. -/
theorem c7_delete_frame_witness :
    (∀ r, r ∈ delete_timetable
        [{ id := 1, filename := "a.pdf", file_data := [], label := "v1",
           program := "General", uploaded_by := "Admin", uploaded_at := 10 },
         { id := 2, filename := "b.pdf", file_data := [], label := "v2",
           program := "General", uploaded_by := "Admin", uploaded_at := 20 }] 1 ↔
      r ∈ [{ id := 1, filename := "a.pdf", file_data := [], label := "v1",
             program := "General", uploaded_by := "Admin", uploaded_at := 10 },
           { id := 2, filename := "b.pdf", file_data := [], label := "v2",
             program := "General", uploaded_by := "Admin", uploaded_at := 20 }] ∧
        r.id ≠ 1) ∧
    get_timetable (delete_timetable
        [{ id := 1, filename := "a.pdf", file_data := [], label := "v1",
           program := "General", uploaded_by := "Admin", uploaded_at := 10 },
         { id := 2, filename := "b.pdf", file_data := [], label := "v2",
           program := "General", uploaded_by := "Admin", uploaded_at := 20 }] 1) "General" =
      some { id := 2, filename := "b.pdf", file_data := [], label := "v2",
             program := "General", uploaded_by := "Admin", uploaded_at := 20 } :=
  c7_delete_frame _ 1 "General" _ (by decide)
    (get_timetable_eq_some_of_max (by decide) (by decide) (by decide) (by decide))
    (by decide)

/-- Claim C3: a submit with no file, or whose label is empty after
stripping, is rejected: no save runs and the store state is exactly the
prior state. -/
theorem c3_submit_rejected (s : StoreState) (form : UploadForm) (now : Nat)
    (h : form.file = none ∨ pyStrip form.label = "") :
    submitUpload s form now = (s, false) := by
  rcases h with h | h
  · simp [submitUpload, h]
  · cases hf : form.file with
    | none => simp [submitUpload, hf]
    | some v =>
      obtain ⟨fname, raw⟩ := v
      simp [submitUpload, hf, h]

/-- Witness for C3: submitting with no file chosen changes nothing. -/
theorem c3_submit_rejected_witness :
    submitUpload { rows := [], nextId := 0 }
      { file := none, label := "Week 9", program := "General" } 5 =
    ({ rows := [], nextId := 0 }, false) :=
  c3_submit_rejected _ _ 5 (Or.inl rfl)

/-! ### Strip is idempotent (for the stored-label invariant) -/

lemma dropWhile_eq_self_of_front {α : Type} {p : α → Bool} {B A : List α}
    (hBA : B <+: A) (hA : A.dropWhile p = A) : B.dropWhile p = B := by
  obtain ⟨t, rfl⟩ := hBA
  cases B with
  | nil => rfl
  | cons x xs =>
    rw [List.cons_append, List.dropWhile_cons] at hA
    by_cases hx : p x
    · rw [if_pos hx] at hA
      have hlen := congrArg List.length hA
      have hle := ((xs ++ t).dropWhile_suffix p).length_le
      simp only [List.length_cons] at hlen
      omega
    · rw [List.dropWhile_cons, if_neg hx]

lemma stripList_idem (l : List Char) : stripList (stripList l) = stripList l := by
  unfold stripList
  rw [dropWhile_eq_self_of_front (List.rdropWhile_prefix _ _)
    (List.dropWhile_idempotent _ _), List.rdropWhile_idempotent]

lemma pyStrip_idem (s : String) : pyStrip (pyStrip s) = pyStrip s := by
  unfold pyStrip
  have h : (String.mk (stripList s.toList)).toList = stripList s.toList := rfl
  rw [h, stripList_idem]

/-- Claim C10: an accepted upload stores the stripped label, so the stored
label carries no surrounding whitespace (stripping it again is the
identity). -/
theorem c10_label_trimmed (s : StoreState) (form : UploadForm) (now : Nat)
    (fname : String) (raw : List Nat)
    (hf : form.file = some (fname, raw)) (hl : pyStrip form.label ≠ "") :
    (submitUpload s form now).2 = true ∧
    ∃ rec : TimetableRecord,
      (submitUpload s form now).1.rows = s.rows ++ [rec] ∧
      rec.label = pyStrip form.label ∧
      pyStrip rec.label = rec.label := by
  have hsub : submitUpload s form now =
      (save_timetable s fname (b64Encode raw) (pyStrip form.label) form.program
        "Admin" now, true) := by
    simp only [submitUpload, hf, if_neg hl]
  rw [hsub]
  exact ⟨rfl,
    ⟨{ id := s.nextId, filename := fname, file_data := b64Encode raw,
       label := pyStrip form.label, program := form.program,
       uploaded_by := "Admin", uploaded_at := now }, rfl, rfl, pyStrip_idem _⟩⟩

/-- Witness for C10: uploading with label `"  Week 9  "` stores label
`"Week 9"`, which stripping leaves unchanged. -/
theorem c10_label_trimmed_witness :
    (submitUpload { rows := [], nextId := 0 }
      { file := some ("t.pdf", [1, 2]), label := "  Week 9  ", program := "JP" } 5).2 = true ∧
    ∃ rec : TimetableRecord,
      (submitUpload { rows := [], nextId := 0 }
        { file := some ("t.pdf", [1, 2]), label := "  Week 9  ", program := "JP" } 5).1.rows =
        ([] : List TimetableRecord) ++ [rec] ∧
      rec.label = pyStrip "  Week 9  " ∧
      pyStrip rec.label = rec.label :=
  c10_label_trimmed _ _ 5 "t.pdf" [1, 2] rfl (by decide)

/-! ### Admin gate -/

/-- Claim C8: `verify_admin` accepts exactly the configured secret, or the
fixed default `"CLC2026admin"` when none is configured. -/
theorem c8_verify_admin_iff (secrets : Option String) (pw : String) :
    verify_admin secrets pw = true ↔ pw = secrets.getD "CLC2026admin" := by
  simp [verify_admin]

lemma runAuthed_from (secrets : Option String) (es : List AdminEvent) (b : Bool)
    (h : es.foldl (stepAuthed secrets) b = true) :
    b = true ∨ ∃ pw, AdminEvent.loginAttempt pw ∈ es ∧ verify_admin secrets pw = true := by
  induction es generalizing b with
  | nil => exact Or.inl h
  | cons e t ih =>
    rw [List.foldl_cons] at h
    rcases ih (stepAuthed secrets b e) h with hstep | ⟨pw, hmem, hv⟩
    · cases e with
      | loginAttempt pw =>
        by_cases hv : verify_admin secrets pw = true
        · exact Or.inr ⟨pw, List.mem_cons_self _ _, hv⟩
        · rw [stepAuthed, if_neg hv] at hstep
          exact Or.inl hstep
      | logout => exact absurd hstep (by simp [stepAuthed])
    · exact Or.inr ⟨pw, List.mem_cons_of_mem e hmem, hv⟩

/-- Claim C9: the session flag starts false, a login attempt turns it true
exactly when `verify_admin` accepts (and can only become true through a
successful verify), and logout resets it to false regardless of prior
state. -/
theorem c9_admin_gate (secrets : Option String) :
    initialAuthed = false ∧
    (∀ pw, stepAuthed secrets false (.loginAttempt pw) = verify_admin secrets pw) ∧
    (∀ b pw, stepAuthed secrets b (.loginAttempt pw) = true →
      b = true ∨ verify_admin secrets pw = true) ∧
    (∀ b, stepAuthed secrets b .logout = false) ∧
    (∀ es, runAdmin secrets es = true →
      ∃ pw, AdminEvent.loginAttempt pw ∈ es ∧ verify_admin secrets pw = true) := by
  refine ⟨rfl, fun pw => ?_, fun b pw h => ?_, fun b => rfl, fun es h => ?_⟩
  · by_cases hv : verify_admin secrets pw = true
    · rw [stepAuthed, if_pos hv, hv]
    · rw [stepAuthed, if_neg hv]
      exact (Bool.not_eq_true _).mp hv |>.symm ▸ rfl
  · by_cases hv : verify_admin secrets pw = true
    · exact Or.inr hv
    · rw [stepAuthed, if_neg hv] at h
      exact Or.inl h
  · rcases runAuthed_from secrets es initialAuthed h with h0 | hex
    · exact absurd h0 (by simp [initialAuthed])
    · exact hex

/-! ### Base64 round-trip -/

lemma b64DecodeSix_encodeSix (n : Nat) (h : n < 64) :
    b64DecodeSix (b64EncodeSix n) = n := by
  revert n
  decide

lemma b64EncodeSix_ne_pad (n : Nat) : b64EncodeSix n ≠ b64Pad := by
  unfold b64EncodeSix b64Pad
  split_ifs <;> omega

lemma b64_decode_encode (l : List Nat) (h : ∀ x ∈ l, x < 256) :
    b64Decode (b64Encode l) = some l := by
  induction l using b64Encode.induct with
  | case4 => rfl
  | case3 a =>
    have ha : a < 256 := h a (List.mem_singleton_self a)
    have e1 : b64DecodeSix (b64EncodeSix (a / 4)) = a / 4 :=
      b64DecodeSix_encodeSix _ (by omega)
    have e2 : b64DecodeSix (b64EncodeSix (a % 4 * 16)) = a % 4 * 16 :=
      b64DecodeSix_encodeSix _ (by omega)
    simp only [b64Encode, b64Decode, e1, e2]
    rw [if_pos ⟨by omega, by omega⟩, if_pos (by simp)]
    simp only [Option.some.injEq, List.cons.injEq, and_true]
    omega
  | case2 a b =>
    have ha : a < 256 := h a (by simp)
    have hb : b < 256 := h b (by simp)
    have e1 : b64DecodeSix (b64EncodeSix (a / 4)) = a / 4 :=
      b64DecodeSix_encodeSix _ (by omega)
    have e2 : b64DecodeSix (b64EncodeSix (a % 4 * 16 + b / 16)) = a % 4 * 16 + b / 16 :=
      b64DecodeSix_encodeSix _ (by omega)
    have e3 : b64DecodeSix (b64EncodeSix (b % 16 * 4)) = b % 16 * 4 :=
      b64DecodeSix_encodeSix _ (by omega)
    simp only [b64Encode, b64Decode, e1, e2, e3]
    rw [if_pos ⟨by omega, by omega⟩,
      if_neg (fun hcon => b64EncodeSix_ne_pad (b % 16 * 4) hcon.1),
      if_pos (by simp), if_pos (show b % 16 * 4 < 64 by omega)]
    simp only [Option.some.injEq, List.cons.injEq, and_true]
    omega
  | case1 a b c rest ih =>
    have ha : a < 256 := h a (by simp)
    have hb : b < 256 := h b (by simp)
    have hc : c < 256 := h c (by simp)
    have hrest : ∀ x ∈ rest, x < 256 := fun x hx => h x (by simp [hx])
    have e1 : b64DecodeSix (b64EncodeSix (a / 4)) = a / 4 :=
      b64DecodeSix_encodeSix _ (by omega)
    have e2 : b64DecodeSix (b64EncodeSix (a % 4 * 16 + b / 16)) = a % 4 * 16 + b / 16 :=
      b64DecodeSix_encodeSix _ (by omega)
    have e3 : b64DecodeSix (b64EncodeSix (b % 16 * 4 + c / 64)) = b % 16 * 4 + c / 64 :=
      b64DecodeSix_encodeSix _ (by omega)
    have e4 : b64DecodeSix (b64EncodeSix (c % 64)) = c % 64 :=
      b64DecodeSix_encodeSix _ (by omega)
    simp only [b64Encode, b64Decode, e1, e2, e3, e4]
    rw [if_pos ⟨by omega, by omega⟩,
      if_neg (fun hcon => b64EncodeSix_ne_pad (b % 16 * 4 + c / 64) hcon.1),
      if_neg (fun hcon => b64EncodeSix_ne_pad (c % 64) hcon.1),
      if_pos ⟨by omega, by omega⟩, ih hrest]
    simp only [Option.map_some', Option.some.injEq, List.cons.injEq, and_true]
    refine ⟨by omega, by omega, by omega⟩

/-- Claim C4: for arbitrary byte content, an accepted upload stores the
base64 encoding of the raw bytes, and decoding the stored payload (as the
view/download path does) recovers exactly the original bytes. -/
theorem c4_roundtrip (s : StoreState) (form : UploadForm) (now : Nat)
    (fname : String) (raw : List Nat)
    (hf : form.file = some (fname, raw)) (hl : pyStrip form.label ≠ "")
    (hbytes : ∀ x ∈ raw, x < 256) :
    ∃ rec : TimetableRecord,
      (submitUpload s form now).1.rows = s.rows ++ [rec] ∧
      rec.file_data = b64Encode raw ∧
      b64Decode rec.file_data = some raw := by
  have hsub : submitUpload s form now =
      (save_timetable s fname (b64Encode raw) (pyStrip form.label) form.program
        "Admin" now, true) := by
    simp only [submitUpload, hf, if_neg hl]
  rw [hsub]
  exact ⟨{ id := s.nextId, filename := fname, file_data := b64Encode raw,
           label := pyStrip form.label, program := form.program,
           uploaded_by := "Admin", uploaded_at := now },
    rfl, rfl, b64_decode_encode raw hbytes⟩

/-- Witness for C4 on the concrete bytes `[0, 255, 7, 16]`
(not a well-formed PDF): the stored payload decodes back to them. -/
theorem c4_roundtrip_witness :
    ∃ rec : TimetableRecord,
      (submitUpload { rows := [], nextId := 0 }
        { file := some ("t.pdf", [0, 255, 7, 16]), label := "v", program := "SY" } 5).1.rows =
        ([] : List TimetableRecord) ++ [rec] ∧
      rec.file_data = b64Encode [0, 255, 7, 16] ∧
      b64Decode rec.file_data = some [0, 255, 7, 16] :=
  c4_roundtrip _ _ 5 "t.pdf" [0, 255, 7, 16] rfl (by decide) (by decide)

/-! ### Term/week label -/

lemma SA_TERMS_eq :
    SA_TERMS = [(1, 739642, 11), (2, 739733, 10), (3, 739817, 10), (4, 739901, 9)] := by
  decide

lemma termLoop_cons_pos {today tn fm tw : Nat} {rest : List (Nat × Nat × Nat)}
    (h1 : fm ≤ today) (h2 : today ≤ fm + tw * 7 - 1) :
    termLoop today ((tn, fm, tw) :: rest) =
      some (termWeekString tn ((today - fm) / 7 + 1)) := by
  simp only [termLoop]
  rw [if_pos ⟨h1, h2⟩]

lemma termLoop_cons_neg {today tn fm tw : Nat} {rest : List (Nat × Nat × Nat)}
    (h : ¬(fm ≤ today ∧ today ≤ fm + tw * 7 - 1)) :
    termLoop today ((tn, fm, tw) :: rest) = termLoop today rest := by
  simp only [termLoop]
  rw [if_neg h]

lemma get_term_week_label_of_loop {today : Nat} {s : String}
    (h : termLoop today SA_TERMS = some s) : get_term_week_label today = s := by
  rw [get_term_week_label, h]

/-- Counterexample to claim C5 as stated: 2026-02-01 is six days after
the first Monday 2026-01-26, so the code labels it Week 1, not the
claimed Week 2. -/
theorem c5_counterexample :
    get_term_week_label (toOrdinal 2026 2 1) = termWeekString 1 1 ∧
    get_term_week_label (toOrdinal 2026 2 1) ≠ termWeekString 1 2 := by
  exact ⟨rfl, by decide⟩

/-- Claim C5 (amended): inside a configured term the label is
`Term n · Week ((d − firstMonday)/7 + 1)` with both boundary days
in-term; 2026-01-26 is Term 1 Week 1, 2026-02-01 is Term 1 Week 1,
the last day 2026-04-12 is Term 1 Week 11, 2026-01-01 is the pre-term
marker, and dates strictly between term 1's end and 2026-04-27 are the
holiday marker. -/
theorem c5_term_week :
    (∀ today tn fm tw, (tn, fm, tw) ∈ SA_TERMS → fm ≤ today →
      today ≤ fm + tw * 7 - 1 →
      get_term_week_label today = termWeekString tn ((today - fm) / 7 + 1)) ∧
    get_term_week_label (toOrdinal 2026 1 26) = termWeekString 1 1 ∧
    get_term_week_label (toOrdinal 2026 2 1) = termWeekString 1 1 ∧
    get_term_week_label (toOrdinal 2026 4 12) = termWeekString 1 11 ∧
    get_term_week_label (toOrdinal 2026 1 1) = "Week 0 — Pre-Term" ∧
    (∀ d, toOrdinal 2026 1 26 + 11 * 7 - 1 < d → d < toOrdinal 2026 4 27 →
      get_term_week_label d = "School Holidays") := by
  refine ⟨?_, rfl, rfl, rfl, rfl, ?_⟩
  · intro today tn fm tw hmem h1 h2
    rw [SA_TERMS_eq] at hmem
    simp only [List.mem_cons, List.not_mem_nil, or_false, Prod.mk.injEq] at hmem
    apply get_term_week_label_of_loop
    rw [SA_TERMS_eq]
    rcases hmem with ⟨rfl, rfl, rfl⟩ | ⟨rfl, rfl, rfl⟩ | ⟨rfl, rfl, rfl⟩ | ⟨rfl, rfl, rfl⟩
    · exact termLoop_cons_pos h1 h2
    · rw [termLoop_cons_neg (by omega)]
      exact termLoop_cons_pos h1 h2
    · rw [termLoop_cons_neg (by omega), termLoop_cons_neg (by omega)]
      exact termLoop_cons_pos h1 h2
    · rw [termLoop_cons_neg (by omega), termLoop_cons_neg (by omega),
        termLoop_cons_neg (by omega)]
      exact termLoop_cons_pos h1 h2
  · intro d hd1 hd2
    have e1 : toOrdinal 2026 1 26 + 11 * 7 - 1 = 739718 := rfl
    have e2 : toOrdinal 2026 4 27 = 739733 := rfl
    rw [e1] at hd1
    rw [e2] at hd2
    have hloop : termLoop d SA_TERMS = none := by
      rw [SA_TERMS_eq, termLoop_cons_neg (by omega), termLoop_cons_neg (by omega),
        termLoop_cons_neg (by omega), termLoop_cons_neg (by omega)]
      rfl
    rw [get_term_week_label, hloop]
    have ehead : (SA_TERMS.headD (0, 0, 0)).2.1 = 739642 := rfl
    rw [ehead, if_neg (by omega)]

/-! ### Failure policy -/

/-- Counterexample to claim C6: `get_all_timetables` catches a store error
with a bare `except` and returns `[]` without surfacing any user-visible
message — its emitted message list is empty. -/
theorem c6_counterexample : (get_all_timetablesW (StoreResult.err "boom")).2 = [] :=
  rfl

/-- Claim C6 (amended): every store error is caught at the repository
boundary and the operation returns `none`/`[]`/`false`; `get_timetable`,
`save_timetable` and `delete_timetable` surface a user-visible message,
while `get_all_timetables` surfaces none. -/
theorem c6_error_policy (e : String) :
    get_timetableW (.err e) = (none, ["Database error: " ++ e]) ∧
    get_all_timetablesW (.err e) = ([], []) ∧
    save_timetableW (.err e) = (false, ["Save failed: " ++ e]) ∧
    delete_timetableW (.err e) = (false, ["Delete failed: " ++ e]) :=
  ⟨rfl, rfl, rfl, rfl⟩
